import Mathlib

/-!
Shallow embedding of the per-read median background normalization performed by
the notebook Test_notebooks/nonlinear_bkg.ipynb (the cell that opens the IMA
file, computes the median of the SCI,1 statistics region, and adds
`total_countrate - med` to each SCI extension 1..NSAMP-1).

Modelling conventions:
* A pixel value is an `Option Rat`: `some q` is a finite floating-point value
  (real arithmetic idealized as exact rational arithmetic), `none` is a
  non-finite value (NaN).  numpy arithmetic propagates NaN, and `np.median`
  returns NaN when its input is empty or contains a NaN.
* A 2-D science array is a list of rows of pixels.
* The ramp is the list of SCI extensions in extension order: list index `k`
  holds extension SCI,k+1, so index 0 is SCI,1 (the last read of the
  exposure) and index NSAMP-1 is SCI,NSAMP (the read nearest the start of
  the exposure).  NSAMP is the number of reads, i.e. the length of the list.
* Python slices with non-negative bounds clamp to the array, never raising.
-/

abbrev Pixel := Option ℚ

abbrev Image := List (List Pixel)

/-- numpy scalar addition: NaN propagates through addition. -/
def pixAdd (a b : Pixel) : Pixel :=
  match a, b with
  | some x, some y => some (x + y)
  | _, _ => none

/-- numpy scalar subtraction: NaN propagates through subtraction. -/
def pixSub (a b : Pixel) : Pixel :=
  match a, b with
  | some x, some y => some (x - y)
  | _, _ => none

/-- Python list slicing `l[a:b]` for non-negative bounds: out-of-range
bounds are clamped, an inverted range gives the empty list. -/
def pySlice (a b : Nat) (l : List α) : List α :=
  (l.drop a).take (b - a)

/-- The `stats_region = [[x0, x1], [y0, y1]]` of the notebook:
`slx = slice(x0, x1)` selects columns and `sly = slice(y0, y1)` selects
rows, and the data is indexed `data[sly, slx]`. -/
structure Region where
  x0 : Nat
  x1 : Nat
  y0 : Nat
  y1 : Nat

/-- The notebook's default region: the whole 1024x1024 frame minus the
5-pixel-wide overscan border. -/
def stats_region : Region := ⟨5, 1014, 5, 1014⟩

/-- `data[sly, slx]` flattened to the list of pixels that
`np.median` sees. -/
def regionVals (img : Image) (r : Region) : List Pixel :=
  ((pySlice r.y0 r.y1 img).map (pySlice r.x0 r.x1)).flatten

/-- Median of a list of rationals in numpy's convention: sort, take the
middle element for odd length, the mean of the two middle elements for
even length. -/
def ratMedian (v : List ℚ) : ℚ :=
  let s := List.insertionSort (· ≤ ·) v
  if v.length % 2 = 1 then s.getD (v.length / 2) 0
  else (s.getD (v.length / 2 - 1) 0 + s.getD (v.length / 2) 0) / 2

/-- `np.median`: NaN when the input is empty or contains a NaN, otherwise
the median of the (finite) values. -/
def npMedian (l : List Pixel) : Pixel :=
  if l = [] ∨ none ∈ l then none
  else some (ratMedian (l.filterMap id))

/-- numpy broadcast `data += c`: the scalar is added to every pixel of the
full array. -/
def addScalar (img : Image) (c : Pixel) : Image :=
  img.map (fun row => row.map (fun p => pixAdd p c))

/-- `med = np.median(ima['SCI',i+1].data[sly, slx])` for the ramp `reads`
(list index `i` holds extension SCI,i+1). -/
def readMed (reads : List Image) (r : Region) (i : Nat) : Pixel :=
  npMedian (regionVals (reads.getD i []) r)

/-- `total_countrate = np.median(ima['SCI',1].data[sly, slx])`. -/
def total_countrate (reads : List Image) (r : Region) : Pixel :=
  readMed reads r 0

/-- Extension number of the read whose region median is the reference
countrate: the code uses SCI,1. -/
def referenceExt : Nat := 1

/-- One iteration of the notebook loop, acting on the state
(current SCI extensions, diagnostic lines printed so far):
`med = np.median(ima['SCI',i+1].data[sly, slx])`;
`ima['SCI',i+1].data += total_countrate - med`;
`print(raw_file, i+1, med)`. -/
def flattenStep (r : Region) (total : Pixel) (st : List Image × List (Nat × Pixel))
    (i : Nat) : List Image × List (Nat × Pixel) :=
  let med := npMedian (regionVals (st.1.getD i []) r)
  (st.1.set i (addScalar (st.1.getD i []) (pixSub total med)),
   st.2 ++ [(i + 1, med)])

/-- The notebook's per-read background normalization:
`total_countrate = np.median(ima['SCI',1].data[sly, slx])`, then
`for i in range(ima[0].header['NSAMP'] - 1):` run `flattenStep`.
Returns the updated SCI extensions and the diagnostic
`(extension, median_bkg)` pairs in print order. -/
def flattenIma (reads : List Image) (r : Region) : List Image × List (Nat × Pixel) :=
  let total := npMedian (regionVals (reads.getD 0 []) r)
  (List.range (reads.length - 1)).foldl (flattenStep r total) (reads, [])

/-- The array the loop leaves in extension SCI,i+1 for `i < NSAMP - 1`:
the original read plus the uniform offset `total_countrate - med_i`. -/
def correctedRead (reads : List Image) (r : Region) (i : Nat) : Image :=
  addScalar (reads.getD i []) (pixSub (total_countrate reads r) (readMed reads r i))

/-- Closed form of the list of SCI extensions after the first `k`
iterations of the loop. -/
def partReads (reads : List Image) (r : Region) (k : Nat) : List Image :=
  (List.range reads.length).map fun j =>
    if j < k then correctedRead reads r j else reads.getD j []

/-- Closed form of the diagnostic output of the first `k` iterations. -/
def partDiag (reads : List Image) (r : Region) (k : Nat) : List (Nat × Pixel) :=
  (List.range k).map fun i => (i + 1, readMed reads r i)

lemma getD_map_range {α : Type} (f : Nat → α) (d : α) {k n : Nat} (h : k < n) :
    ((List.range n).map f).getD k d = f k := by
  have hlen : k < ((List.range n).map f).length := by simpa using h
  rw [List.getD_eq_getElem _ _ hlen, List.getElem_map, List.getElem_range]

lemma map_getD_range {α : Type} (l : List α) (d : α) :
    ((List.range l.length).map fun j => l.getD j d) = l := by
  apply List.ext_getElem
  · simp
  · intro i h1 h2
    rw [List.getElem_map, List.getElem_range, List.getD_eq_getElem _ _ h2]

lemma partReads_zero (reads : List Image) (r : Region) :
    partReads reads r 0 = reads := by
  unfold partReads
  simpa using map_getD_range reads []

lemma loop_inv (reads : List Image) (r : Region) :
    ∀ k, k ≤ reads.length - 1 →
      (List.range k).foldl (flattenStep r (total_countrate reads r)) (reads, []) =
        (partReads reads r k, partDiag reads r k) := by
  intro k
  induction k with
  | zero =>
    intro _
    simp [partReads_zero, partDiag]
  | succ k ih =>
    intro hk
    have hk' : k ≤ reads.length - 1 := Nat.le_of_succ_le hk
    have hkn : k < reads.length := by omega
    rw [List.range_succ, List.foldl_append, ih hk']
    show flattenStep r (total_countrate reads r) (partReads reads r k, partDiag reads r k) k = _
    unfold flattenStep
    have hget : (partReads reads r k).getD k [] = reads.getD k [] := by
      unfold partReads
      rw [getD_map_range _ _ hkn]
      simp
    rw [hget]
    have hmed : npMedian (regionVals (reads.getD k []) r) = readMed reads r k := rfl
    refine Prod.ext ?_ ?_
    · show (partReads reads r k).set k
        (addScalar (reads.getD k []) (pixSub (total_countrate reads r)
          (npMedian (regionVals (reads.getD k []) r)))) = partReads reads r (k + 1)
      apply List.ext_getElem
      · simp [partReads]
      · intro i h1 h2
        have hin : i < reads.length := by
          simpa [partReads] using h2
        rw [List.getElem_set]
        by_cases hik : k = i
        · subst hik
          rw [if_pos rfl]
          unfold partReads
          rw [List.getElem_map, List.getElem_range, if_pos (Nat.lt_succ_self k)]
          rfl
        · rw [if_neg hik]
          unfold partReads
          rw [List.getElem_map, List.getElem_range, List.getElem_map, List.getElem_range]
          by_cases hi : i < k
          · rw [if_pos hi, if_pos (by omega)]
          · rw [if_neg hi, if_neg (by omega)]
    · show partDiag reads r k ++ [(k + 1, npMedian (regionVals (reads.getD k []) r))] =
        partDiag reads r (k + 1)
      unfold partDiag
      rw [List.range_succ, List.map_append]
      simp [readMed]

/-- The loop is equivalent to its closed form. -/
lemma flatten_eq_direct (reads : List Image) (r : Region) :
    flattenIma reads r =
      (partReads reads r (reads.length - 1), partDiag reads r (reads.length - 1)) := by
  unfold flattenIma
  exact loop_inv reads r (reads.length - 1) le_rfl

lemma flatten_fst_length (reads : List Image) (r : Region) :
    (flattenIma reads r).1.length = reads.length := by
  rw [flatten_eq_direct]
  simp [partReads]

lemma flatten_fst_getD (reads : List Image) (r : Region) {j : Nat}
    (hj : j < reads.length - 1) :
    (flattenIma reads r).1.getD j [] = correctedRead reads r j := by
  rw [flatten_eq_direct]
  show (partReads reads r (reads.length - 1)).getD j [] = _
  unfold partReads
  rw [getD_map_range _ _ (by omega)]
  simp [hj]

lemma flatten_fst_getD_ge (reads : List Image) (r : Region) {j : Nat}
    (hj : reads.length - 1 ≤ j) :
    (flattenIma reads r).1.getD j [] = reads.getD j [] := by
  rw [flatten_eq_direct]
  show (partReads reads r (reads.length - 1)).getD j [] = _
  unfold partReads
  by_cases hn : j < reads.length
  · rw [getD_map_range _ _ hn]
    have : ¬ j < reads.length - 1 := by omega
    simp [this]
  · rw [List.getD_eq_default, List.getD_eq_default]
    · omega
    · simp
      omega

lemma flatten_snd (reads : List Image) (r : Region) :
    (flattenIma reads r).2 =
      (List.range (reads.length - 1)).map fun i => (i + 1, readMed reads r i) := by
  rw [flatten_eq_direct]
  rfl

lemma insertionSort_map_shift (v : List ℚ) (c : ℚ) :
    List.insertionSort (· ≤ ·) (v.map (· + c)) =
      (List.insertionSort (· ≤ ·) v).map (· + c) := by
  have hperm : (List.insertionSort (· ≤ ·) (v.map (· + c))).Perm
      ((List.insertionSort (· ≤ ·) v).map (· + c)) :=
    (List.perm_insertionSort _ _).trans
      ((List.perm_insertionSort _ v).map _).symm
  have hs1 : List.Sorted (· ≤ ·) (List.insertionSort (· ≤ ·) (v.map (· + c))) :=
    List.sorted_insertionSort _ _
  have hs2 : List.Sorted (· ≤ ·) ((List.insertionSort (· ≤ ·) v).map (· + c)) :=
    List.Pairwise.map _ (fun a b hab => by simpa using add_le_add_right hab c)
      (List.sorted_insertionSort _ v)
  exact List.eq_of_perm_of_sorted hperm hs1 hs2

lemma ratMedian_map_add (v : List ℚ) (c : ℚ) (hv : v ≠ []) :
    ratMedian (v.map (· + c)) = ratMedian v + c := by
  have hpos : 0 < v.length := List.length_pos.mpr hv
  have hslen : (List.insertionSort (· ≤ ·) v).length = v.length :=
    List.length_insertionSort _ v
  unfold ratMedian
  rw [insertionSort_map_shift, List.length_map]
  by_cases hodd : v.length % 2 = 1
  · rw [if_pos hodd, if_pos hodd]
    have h2 : v.length / 2 < (List.insertionSort (· ≤ ·) v).length := by
      rw [hslen]; omega
    have h2m : v.length / 2 < ((List.insertionSort (· ≤ ·) v).map (· + c)).length := by
      simpa using h2
    rw [List.getD_eq_getElem _ _ h2m, List.getElem_map, List.getD_eq_getElem _ _ h2]
  · rw [if_neg hodd, if_neg hodd]
    have hge2 : 2 ≤ v.length := by omega
    have ha : v.length / 2 - 1 < (List.insertionSort (· ≤ ·) v).length := by
      rw [hslen]; omega
    have hb : v.length / 2 < (List.insertionSort (· ≤ ·) v).length := by
      rw [hslen]; omega
    have ham : v.length / 2 - 1 < ((List.insertionSort (· ≤ ·) v).map (· + c)).length := by
      simpa using ha
    have hbm : v.length / 2 < ((List.insertionSort (· ≤ ·) v).map (· + c)).length := by
      simpa using hb
    rw [List.getD_eq_getElem _ _ ham, List.getD_eq_getElem _ _ hbm,
      List.getElem_map, List.getElem_map,
      List.getD_eq_getElem _ _ ha, List.getD_eq_getElem _ _ hb]
    ring

lemma pixAdd_none_iff (p : Pixel) (c : ℚ) : pixAdd p (some c) = none ↔ p = none := by
  cases p <;> simp [pixAdd]

lemma filterMap_pixAdd (l : List Pixel) (c : ℚ) :
    l.filterMap (fun p => pixAdd p (some c)) = (l.filterMap id).map (· + c) := by
  induction l with
  | nil => rfl
  | cons p t ih =>
    cases p with
    | none => simpa [List.filterMap_cons, pixAdd] using ih
    | some x => simpa [List.filterMap_cons, pixAdd] using ih

lemma filterMap_id_map_pixAdd (l : List Pixel) (c : ℚ) :
    (l.map (fun p => pixAdd p (some c))).filterMap id =
      (l.filterMap id).map (· + c) := by
  rw [List.filterMap_map]
  simpa [Function.comp] using filterMap_pixAdd l c

lemma filterMap_id_ne_nil (l : List Pixel) (h1 : l ≠ []) (h2 : none ∉ l) :
    l.filterMap id ≠ [] := by
  cases l with
  | nil => exact absurd rfl h1
  | cons p t =>
    cases p with
    | none => exact absurd (List.mem_cons_self _ _) h2
    | some x => simp [List.filterMap_cons]

lemma npMedian_eq_some (l : List Pixel) (h1 : l ≠ []) (h2 : none ∉ l) :
    npMedian l = some (ratMedian (l.filterMap id)) := by
  unfold npMedian
  rw [if_neg (not_or.mpr ⟨h1, h2⟩)]

lemma npMedian_map_pixAdd (l : List Pixel) (c : ℚ) :
    npMedian (l.map (fun p => pixAdd p (some c))) = (npMedian l).map (· + c) := by
  have hnone : none ∈ l.map (fun p => pixAdd p (some c)) ↔ none ∈ l := by
    constructor
    · intro hmem
      rcases List.mem_map.mp hmem with ⟨a, ha, hae⟩
      exact (pixAdd_none_iff a c).mp hae ▸ ha
    · intro hmem
      exact List.mem_map.mpr ⟨none, hmem, rfl⟩
  have hcond : (l.map (fun p => pixAdd p (some c)) = [] ∨
      none ∈ l.map (fun p => pixAdd p (some c))) ↔ (l = [] ∨ none ∈ l) :=
    or_congr List.map_eq_nil_iff hnone
  unfold npMedian
  by_cases h : l = [] ∨ none ∈ l
  · rw [if_pos (hcond.mpr h), if_pos h]
    rfl
  · rw [if_neg (fun hc => h (hcond.mp hc)), if_neg h]
    push_neg at h
    rw [filterMap_id_map_pixAdd, ratMedian_map_add _ _ (filterMap_id_ne_nil l h.1 h.2)]
    rfl

lemma pySlice_map {α β : Type} (f : α → β) (a b : Nat) (l : List α) :
    pySlice a b (l.map f) = (pySlice a b l).map f := by
  simp [pySlice]

lemma regionVals_addScalar (img : Image) (c : Pixel) (r : Region) :
    regionVals (addScalar img c) r = (regionVals img r).map (fun p => pixAdd p c) := by
  unfold regionVals addScalar
  rw [pySlice_map]
  simp only [List.map_flatten, List.map_map]
  congr 1
  apply List.map_congr_left
  intro row _
  simp [Function.comp, pySlice_map]

lemma corrected_med (reads : List Image) (r : Region) (j : Nat) (t m : ℚ)
    (ht : total_countrate reads r = some t) (hm : readMed reads r j = some m) :
    npMedian (regionVals (correctedRead reads r j) r) = some t := by
  unfold correctedRead
  rw [ht]
  rw [show readMed reads r j = some m from hm]
  show npMedian (regionVals (addScalar (reads.getD j []) (some (t - m))) r) = some t
  rw [regionVals_addScalar, npMedian_map_pixAdd]
  rw [show npMedian (regionVals (reads.getD j []) r) = some m from hm]
  simp

/-- 1x1 image holding the single finite pixel value `q`. -/
def img1 (q : ℚ) : Image := [[some q]]

/-- Region covering exactly the single pixel of a 1x1 image. -/
def r11 : Region := ⟨0, 1, 0, 1⟩

/-- Three-read ramp whose region medians are 10, 6, 7
(extensions SCI,1, SCI,2, SCI,3). -/
def R3 : List Image := [img1 10, img1 6, img1 7]

lemma flatten3 (a b c : Image) (r : Region) :
    flattenIma [a, b, c] r =
      ([addScalar a (pixSub (npMedian (regionVals a r)) (npMedian (regionVals a r))),
        addScalar b (pixSub (npMedian (regionVals a r)) (npMedian (regionVals b r))),
        c],
       [(1, npMedian (regionVals a r)), (2, npMedian (regionVals b r))]) := by
  rw [flatten_eq_direct]
  refine Prod.ext ?_ ?_
  · show partReads [a, b, c] r ([a, b, c].length - 1) = _
    unfold partReads correctedRead total_countrate readMed
    norm_num [List.range_succ]
  · show partDiag [a, b, c] r ([a, b, c].length - 1) = _
    unfold partDiag readMed
    norm_num [List.range_succ]

lemma flatten2 (a b : Image) (r : Region) :
    flattenIma [a, b] r =
      ([addScalar a (pixSub (npMedian (regionVals a r)) (npMedian (regionVals a r))), b],
       [(1, npMedian (regionVals a r))]) := by
  rw [flatten_eq_direct]
  refine Prod.ext ?_ ?_
  · show partReads [a, b] r ([a, b].length - 1) = _
    unfold partReads correctedRead total_countrate readMed
    norm_num [List.range_succ]
  · show partDiag [a, b] r ([a, b].length - 1) = _
    unfold partDiag readMed
    norm_num [List.range_succ]

lemma pixAdd_zero (p : Pixel) : pixAdd p (some 0) = p := by
  cases p <;> simp [pixAdd]

lemma addScalar_zero (img : Image) : addScalar img (some 0) = img := by
  simp [addScalar, pixAdd_zero]

lemma pixSub_none (a : Pixel) : pixSub a none = none := by
  cases a <;> rfl

lemma pixAdd_none (a : Pixel) : pixAdd a none = none := by
  cases a <;> rfl

lemma regionVals_of_inverted_rows (img : Image) (r : Region) (h : r.y1 ≤ r.y0) :
    regionVals img r = [] := by
  unfold regionVals pySlice
  rw [Nat.sub_eq_zero_of_le h]
  simp

/-- A read whose region median is NaN receives a NaN offset, which
overwrites every pixel of the full array with NaN. -/
lemma flatten_nan_read (reads : List Image) (r : Region) (j : Nat)
    (hj : j < reads.length - 1) (hmed : readMed reads r j = none) :
    (flattenIma reads r).1.getD j [] =
      (reads.getD j []).map (fun row => row.map fun _ => (none : Pixel)) := by
  rw [flatten_fst_getD reads r hj]
  unfold correctedRead
  rw [hmed, pixSub_none]
  unfold addScalar
  apply List.map_congr_left
  intro row _
  apply List.map_congr_left
  intro p _
  exact pixAdd_none p

lemma addScalar_length (img : Image) (c : Pixel) :
    (addScalar img c).length = img.length := by
  simp [addScalar]

lemma addScalar_row_length (img : Image) (c : Pixel) (a : Nat) :
    ((addScalar img c).getD a []).length = ((img.getD a []).length) := by
  by_cases ha : a < img.length
  · have ham : a < (addScalar img c).length := by rw [addScalar_length]; exact ha
    rw [List.getD_eq_getElem _ _ ham, List.getD_eq_getElem _ _ ha]
    simp [addScalar]
  · rw [List.getD_eq_default, List.getD_eq_default]
    · omega
    · rw [addScalar_length]; omega

/-- Three-read ramp with region medians 10, 6, 10 (the spec scenario). -/
def S3 : List Image := [img1 10, img1 6, img1 10]

/-- Three-read ramp with region medians 10, 12, 12: two reads whose
median exceeds the reference median. -/
def R7 : List Image := [img1 10, img1 12, img1 12]

/-- Two-read ramp of 1x1 images. -/
def R2 : List Image := [img1 10, img1 6]

/-- Region whose row range is inverted: rowStart 3 exceeds rowEnd 1. -/
def rInv : Region := ⟨0, 1, 3, 1⟩

/-- Three-read ramp of 2x2 images; the statistics-region pixel of the
second read is NaN while its other pixels are finite. -/
def Rnan : List Image :=
  [[[some 10, some 10], [some 10, some 10]],
   [[none, some 5], [some 5, some 5]],
   [[some 7, some 7], [some 7, some 7]]]

lemma R3_flat : flattenIma R3 r11 =
    ([img1 10, img1 10, img1 7], [(1, some 10), (2, some 6)]) := by
  have h0 : npMedian (regionVals (img1 10) r11) = some 10 := by decide
  have h1 : npMedian (regionVals (img1 6) r11) = some 6 := by decide
  rw [show R3 = [img1 10, img1 6, img1 7] from rfl, flatten3, h0, h1]
  norm_num [addScalar, pixAdd, pixSub, img1]

lemma S3_flat : flattenIma S3 r11 =
    ([img1 10, img1 10, img1 10], [(1, some 10), (2, some 6)]) := by
  have h0 : npMedian (regionVals (img1 10) r11) = some 10 := by decide
  have h1 : npMedian (regionVals (img1 6) r11) = some 6 := by decide
  rw [show S3 = [img1 10, img1 6, img1 10] from rfl, flatten3, h0, h1]
  norm_num [addScalar, pixAdd, pixSub, img1]

lemma R7_flat : flattenIma R7 r11 =
    ([img1 10, img1 10, img1 12], [(1, some 10), (2, some 12)]) := by
  have h0 : npMedian (regionVals (img1 10) r11) = some 10 := by decide
  have h1 : npMedian (regionVals (img1 12) r11) = some 12 := by decide
  rw [show R7 = [img1 10, img1 12, img1 12] from rfl, flatten3, h0, h1]
  norm_num [addScalar, pixAdd, pixSub, img1]

lemma R2inv_flat : flattenIma R2 rInv = ([[[none]], [[some 6]]], [(1, none)]) := by
  have h0 : npMedian (regionVals (img1 10) rInv) = none := by decide
  rw [show R2 = [img1 10, img1 6] from rfl, flatten2, h0]
  norm_num [addScalar, pixAdd, pixSub, img1]

lemma Rnan_flat : flattenIma Rnan r11 =
    ([[[some 10, some 10], [some 10, some 10]],
      [[none, none], [none, none]],
      [[some 7, some 7], [some 7, some 7]]],
     [(1, some 10), (2, none)]) := by
  have h0 : npMedian (regionVals ([[some 10, some 10], [some 10, some 10]] : Image) r11) =
      some 10 := by decide
  have h1 : npMedian (regionVals ([[none, some 5], [some 5, some 5]] : Image) r11) =
      none := by decide
  rw [show Rnan = [[[some 10, some 10], [some 10, some 10]],
    [[none, some 5], [some 5, some 5]],
    [[some 7, some 7], [some 7, some 7]]] from rfl, flatten3, h0, h1]
  norm_num [addScalar, pixAdd, pixSub]

/-- Claim C1, counterexample.  The three-read ramp R3 has N=3>1 reads and the
region r11 is valid (non-empty, in bounds, all finite) for every read, with
region medians 10, 6, 7.  After the normalizer runs, the last read (SCI,3,
a non-reference read) still has region median 7, while the reference read
SCI,1 has region median 10: the loop `range(NSAMP-1)` never corrects the
last extension, so the claimed invariant fails. -/
theorem C1_counterexample :
    regionVals (R3.getD 0 []) r11 = [some 10] ∧
    regionVals (R3.getD 1 []) r11 = [some 6] ∧
    regionVals (R3.getD 2 []) r11 = [some 7] ∧
    npMedian (regionVals ((flattenIma R3 r11).1.getD 0 []) r11) = some 10 ∧
    npMedian (regionVals ((flattenIma R3 r11).1.getD 2 []) r11) = some 7 ∧
    (some (7 : ℚ) : Pixel) ≠ some 10 := by
  refine ⟨by decide, by decide, by decide, ?_, ?_, ?_⟩
  · rw [R3_flat]
    decide
  · rw [R3_flat]
    decide
  · simp

/-- Claim C1, amended: after the normalizer runs, the region median of every
read the loop corrects (extensions SCI,1 .. SCI,NSAMP-1, i.e. list index
j < NSAMP-1) equals the region median of the reference read SCI,1, exactly
in rational arithmetic, provided both regions are non-empty and all-finite;
the final extension SCI,NSAMP is left unmodified and its median may differ. -/
theorem C1_amended (reads : List Image) (r : Region) (j : Nat)
    (hj : j < reads.length - 1)
    (h0 : regionVals (reads.getD 0 []) r ≠ [])
    (h0f : none ∉ regionVals (reads.getD 0 []) r)
    (hjn : regionVals (reads.getD j []) r ≠ [])
    (hjf : none ∉ regionVals (reads.getD j []) r) :
    npMedian (regionVals ((flattenIma reads r).1.getD j []) r) =
      npMedian (regionVals (reads.getD 0 []) r) := by
  rw [flatten_fst_getD reads r hj]
  have ht : total_countrate reads r =
      some (ratMedian ((regionVals (reads.getD 0 []) r).filterMap id)) :=
    npMedian_eq_some _ h0 h0f
  have hm : readMed reads r j =
      some (ratMedian ((regionVals (reads.getD j []) r).filterMap id)) :=
    npMedian_eq_some _ hjn hjf
  rw [corrected_med reads r j _ _ ht hm]
  exact ht.symm

/-- Witness for C1_amended at the concrete ramp R3, read SCI,2. -/
theorem C1_witness :
    npMedian (regionVals ((flattenIma R3 r11).1.getD 1 []) r11) =
      npMedian (regionVals (R3.getD 0 []) r11) :=
  C1_amended R3 r11 1 (by decide) (by decide) (by decide) (by decide) (by decide)

/-- Claim C2, counterexample.  For the ramp R3 (region medians 10, 6, 7),
read index 2 (SCI,3) is not the reference read, yet the normalizer returns
it unchanged ([[7]]) instead of `ramp[i] + (total - med_i)` = [[10]]: the
loop stops before the last extension. -/
theorem C2_counterexample :
    (flattenIma R3 r11).1.getD 2 [] = [[some 7]] ∧
    addScalar (R3.getD 2 []) (pixSub (total_countrate R3 r11) (readMed R3 r11 2)) =
      [[some 10]] ∧
    ([[some (7 : ℚ)]] : Image) ≠ [[some 10]] := by
  refine ⟨?_, ?_, ?_⟩
  · rw [R3_flat]
    rfl
  · have ht : total_countrate R3 r11 = some 10 := by decide
    have hm : readMed R3 r11 2 = some 7 := by decide
    rw [ht, hm]
    norm_num [addScalar, pixAdd, pixSub, R3, img1]
  · simp

/-- Claim C2, amended: for every read the loop visits (list index
j < NSAMP-1, extensions SCI,1 .. SCI,NSAMP-1, which includes the reference
read, whose offset is zero), the output read equals the input read plus the
uniform offset `total - med_j` broadcast over every pixel of the full
array; the last extension SCI,NSAMP is returned unmodified. -/
theorem C2_amended (reads : List Image) (r : Region) (j : Nat)
    (hj : j < reads.length - 1) :
    (flattenIma reads r).1.getD j [] =
      addScalar (reads.getD j [])
        (pixSub (total_countrate reads r) (readMed reads r j)) :=
  flatten_fst_getD reads r hj

/-- Witness for C2_amended at the concrete ramp R3, read SCI,2. -/
theorem C2_witness :
    (flattenIma R3 r11).1.getD 1 [] =
      addScalar (R3.getD 1 [])
        (pixSub (total_countrate R3 r11) (readMed R3 r11 1)) :=
  C2_amended R3 r11 1 (by decide)

/-- Claim C3, counterexample.  On the spec scenario ramp S3 (region medians
10, 6, 10) the diagnostic list is [(1,10),(2,6)] as claimed, but the
reference read - the read whose region median defines the reference
countrate - is extension SCI,1 (not 3), and it does contribute the
diagnostic pair (1, 10): the read that contributes no pair is the last
extension SCI,3, which is not the reference. -/
theorem C3_counterexample :
    (flattenIma S3 r11).2 = [(1, some 10), (2, some 6)] ∧
    (referenceExt, (some (10 : ℚ) : Pixel)) ∈ (flattenIma S3 r11).2 ∧
    referenceExt ≠ 3 := by
  refine ⟨?_, ?_, by decide⟩
  · rw [S3_flat]
  · rw [S3_flat]
    show (1, some 10) ∈ [(1, some 10), (2, some 6)]
    exact List.mem_cons_self _ _

/-- Claim C3, amended: on the scenario ramp S3 the normalizer applies the
uniform offset +4 to read 2, returns reads 1 and 3 with their original
values, and emits exactly [(1,10),(2,6)]; the read contributing no
diagnostic pair is the last extension SCI,3, while the reference read SCI,1
contributes (1,10) with a zero offset. -/
theorem C3_amended :
    flattenIma S3 r11 = ([img1 10, img1 10, img1 10], [(1, some 10), (2, some 6)]) ∧
    (flattenIma S3 r11).1.getD 1 [] = addScalar (S3.getD 1 []) (some 4) ∧
    (flattenIma S3 r11).1.getD 0 [] = S3.getD 0 [] ∧
    (flattenIma S3 r11).1.getD 2 [] = S3.getD 2 [] ∧
    (flattenIma S3 r11).2.map Prod.fst = [1, 2] := by
  refine ⟨S3_flat, ?_, ?_, ?_, ?_⟩
  · rw [S3_flat]
    show img1 10 = addScalar (img1 6) (some 4)
    norm_num [addScalar, pixAdd, img1]
  · rw [S3_flat]
    rfl
  · rw [S3_flat]
    rfl
  · rw [S3_flat]
    rfl

/-- Claim C4, counterexample.  In the ramp Rnan the statistics region of
read SCI,2 contains only a non-finite value (its median is undefined), yet
the normalizer does not fail: it returns a result in which the NaN offset
has silently overwritten every pixel of read SCI,2 - including its three
finite pixels - and the NaN median even appears in the diagnostics. -/
theorem C4_counterexample :
    regionVals (Rnan.getD 1 []) r11 = [none] ∧
    (flattenIma Rnan r11).1.getD 1 [] = [[none, none], [none, none]] ∧
    (flattenIma Rnan r11).2 = [(1, some 10), (2, none)] ∧
    ([[none, none], [none, none]] : Image) ≠ Rnan.getD 1 [] := by
  refine ⟨by decide, ?_, ?_, by decide⟩
  · rw [Rnan_flat]
    rfl
  · rw [Rnan_flat]

/-- Claim C4, amended: when the statistics region of a read the loop visits
(index j < NSAMP-1) contains only non-finite values, the normalizer raises
no error and substitutes no fallback: the undefined (NaN) median produces a
NaN offset which overwrites every pixel of that read's full array with
NaN. -/
theorem C4_amended (reads : List Image) (r : Region) (j : Nat)
    (hj : j < reads.length - 1)
    (hnan : ∀ p ∈ regionVals (reads.getD j []) r, p = none) :
    (flattenIma reads r).1.getD j [] =
      (reads.getD j []).map (fun row => row.map fun _ => (none : Pixel)) := by
  apply flatten_nan_read reads r j hj
  unfold readMed npMedian
  by_cases hre : regionVals (reads.getD j []) r = []
  · rw [if_pos (Or.inl hre)]
  · rcases List.exists_mem_of_ne_nil _ hre with ⟨p, hp⟩
    have hpn := hnan p hp
    rw [if_pos (Or.inr (hpn ▸ hp))]

/-- Witness for C4_amended at the concrete ramp Rnan, read SCI,2. -/
theorem C4_witness :
    (flattenIma Rnan r11).1.getD 1 [] =
      (Rnan.getD 1 []).map (fun row => row.map fun _ => (none : Pixel)) :=
  C4_amended Rnan r11 1 (by decide) (by decide)

/-- Claim C5, counterexample.  The region rInv has rowStart 3 exceeding
rowEnd 1, yet the normalizer raises no InvalidInput error and does access
the arrays: slicing clamps the inverted range to an empty selection whose
median is NaN, and the NaN offset is applied to read SCI,1, whose array is
modified (its finite pixel becomes NaN). -/
theorem C5_counterexample :
    rInv.y1 < rInv.y0 ∧
    flattenIma R2 rInv = ([[[none]], [[some 6]]], [(1, none)]) ∧
    (flattenIma R2 rInv).1.getD 0 [] ≠ R2.getD 0 [] := by
  refine ⟨by decide, R2inv_flat, ?_⟩
  rw [R2inv_flat]
  decide

/-- Claim C5, amended: the code performs no region validation and never
raises before accessing the arrays: slicing silently clamps out-of-bounds
bounds, and a region whose rowStart is at or past its rowEnd selects
nothing, so its median is NaN and the NaN offset overwrites every pixel of
every read the loop visits (index j < NSAMP-1). -/
theorem C5_amended (reads : List Image) (r : Region) (j : Nat)
    (hyx : r.y1 ≤ r.y0) (hj : j < reads.length - 1) :
    (flattenIma reads r).1.getD j [] =
      (reads.getD j []).map (fun row => row.map fun _ => (none : Pixel)) := by
  apply flatten_nan_read reads r j hj
  unfold readMed
  rw [regionVals_of_inverted_rows _ _ hyx]
  rfl

/-- Witness for C5_amended at the concrete ramp R2 with the inverted
region rInv. -/
theorem C5_witness :
    (flattenIma R2 rInv).1.getD 0 [] =
      (R2.getD 0 []).map (fun row => row.map fun _ => (none : Pixel)) :=
  C5_amended R2 rInv 0 (by decide) (by decide)

/-- Claim C6: the normalizer is idempotent.  If every read the loop visits
has a non-empty all-finite statistics region, then rerunning the normalizer
on the corrected ramp with the same region leaves every read unchanged:
each second-pass median equals the reference median, so every second-pass
offset is exactly zero. -/
theorem C6_idempotent (reads : List Image) (r : Region)
    (hval : ∀ j < reads.length - 1,
      regionVals (reads.getD j []) r ≠ [] ∧
        none ∉ regionVals (reads.getD j []) r) :
    (flattenIma (flattenIma reads r).1 r).1 = (flattenIma reads r).1 := by
  by_cases hn : reads.length ≤ 1
  · have h1 : (flattenIma reads r).1 = reads := by
      unfold flattenIma
      rw [show reads.length - 1 = 0 from by omega]
      rfl
    rw [h1, h1]
  · push_neg at hn
    have hlen : (flattenIma reads r).1.length = reads.length :=
      flatten_fst_length reads r
    have h0 := hval 0 (by omega)
    obtain ⟨t, ht⟩ : ∃ t, total_countrate reads r = some t :=
      ⟨_, npMedian_eq_some _ h0.1 h0.2⟩
    have hout0 : (flattenIma reads r).1.getD 0 [] = reads.getD 0 [] := by
      rw [flatten_fst_getD reads r (by omega)]
      unfold correctedRead
      rw [ht, show readMed reads r 0 = some t from ht]
      show addScalar (reads.getD 0 []) (some (t - t)) = _
      rw [show t - t = 0 from by ring]
      exact addScalar_zero _
    have htot2 : total_countrate (flattenIma reads r).1 r = some t := by
      unfold total_countrate readMed
      rw [hout0]
      exact ht
    apply List.ext_getElem
    · rw [flatten_fst_length, hlen]
    · intro i hi1 hi2
      have hi : i < reads.length := by
        rw [← hlen]
        exact hi2
      rw [← List.getD_eq_getElem _ [] hi1, ← List.getD_eq_getElem _ [] hi2]
      by_cases hilt : i < (flattenIma reads r).1.length - 1
      · rw [flatten_fst_getD _ r hilt]
        have hjr : i < reads.length - 1 := by omega
        have hj := hval i hjr
        obtain ⟨m, hm⟩ : ∃ m, readMed reads r i = some m :=
          ⟨_, npMedian_eq_some _ hj.1 hj.2⟩
        have houti : (flattenIma reads r).1.getD i [] = correctedRead reads r i :=
          flatten_fst_getD reads r hjr
        have hmed2 : readMed (flattenIma reads r).1 r i = some t := by
          unfold readMed
          rw [houti]
          exact corrected_med reads r i t m ht hm
        unfold correctedRead
        rw [htot2, hmed2]
        show addScalar ((flattenIma reads r).1.getD i []) (some (t - t)) = _
        rw [show t - t = 0 from by ring]
        exact addScalar_zero _
      · rw [flatten_fst_getD_ge _ r (by omega)]

/-- Witness for C6_idempotent at the concrete ramp R3. -/
theorem C6_witness :
    (flattenIma (flattenIma R3 r11).1 r11).1 = (flattenIma R3 r11).1 :=
  C6_idempotent R3 r11 (by decide)

/-- Claim C7, counterexample.  In the ramp R7, the non-reference read SCI,3
has region median 12, exceeding the reference median 10, yet the normalizer
leaves it at [[12]] instead of decreasing every pixel by 12 - 10 = 2: the
loop never visits the last extension. -/
theorem C7_counterexample :
    total_countrate R7 r11 = some 10 ∧
    readMed R7 r11 2 = some 12 ∧
    (10 : ℚ) < 12 ∧
    (flattenIma R7 r11).1.getD 2 [] = [[some 12]] ∧
    ([[some (12 : ℚ)]] : Image) ≠ [[some 10]] := by
  refine ⟨by decide, by decide, by decide, ?_, ?_⟩
  · rw [R7_flat]
    rfl
  · simp

/-- Claim C7, amended: every read the loop visits (index j < NSAMP-1) whose
pre-correction region median m exceeds the reference median t receives the
uniform offset t - m, which is negative: every pixel of its full array is
decreased by exactly m - t; the last extension SCI,NSAMP is unmodified even
when its median exceeds the reference median. -/
theorem C7_amended (reads : List Image) (r : Region) (j : Nat) (t m : ℚ)
    (hj : j < reads.length - 1)
    (ht : total_countrate reads r = some t)
    (hm : readMed reads r j = some m)
    (hgt : t < m) :
    (flattenIma reads r).1.getD j [] =
      addScalar (reads.getD j []) (some (t - m)) ∧
    t - m < 0 := by
  constructor
  · rw [flatten_fst_getD reads r hj]
    unfold correctedRead
    rw [ht, hm]
    rfl
  · linarith

/-- Witness for C7_amended at the concrete ramp R7, read SCI,2
(median 12 > reference median 10). -/
theorem C7_witness :
    (flattenIma R7 r11).1.getD 1 [] =
      addScalar (R7.getD 1 []) (some (10 - 12)) ∧
    (10 : ℚ) - 12 < 0 :=
  C7_amended R7 r11 1 10 12 (by decide) (by decide) (by decide) (by decide)

/-- Claim C8: shape preservation.  The output ramp has the same number of
reads as the input, and at every read index the output read has the same
number of rows and the same length of each row as the corresponding input
read (out-of-range indices yield the empty default on both sides). -/
theorem C8_shape (reads : List Image) (r : Region) :
    (flattenIma reads r).1.length = reads.length ∧
    ∀ j, ((flattenIma reads r).1.getD j []).length = (reads.getD j []).length ∧
      ∀ a, (((flattenIma reads r).1.getD j []).getD a []).length =
        ((reads.getD j []).getD a []).length := by
  refine ⟨flatten_fst_length reads r, ?_⟩
  intro j
  by_cases hj : j < reads.length - 1
  · rw [flatten_fst_getD reads r hj]
    unfold correctedRead
    exact ⟨addScalar_length _ _, fun a => addScalar_row_length _ _ a⟩
  · rw [flatten_fst_getD_ge reads r (by omega)]
    exact ⟨rfl, fun a => rfl⟩

/-- Claim C9: the reference read never causes an error and is returned
unmodified.  The embedded normalizer is a total function, and when the
reference region is non-empty and all-finite the offset computed for the
reference read SCI,1 is `total - total = 0`, so the read is unchanged. -/
theorem C9_reference_unmodified (reads : List Image) (r : Region)
    (h0 : regionVals (reads.getD 0 []) r ≠ [])
    (h0f : none ∉ regionVals (reads.getD 0 []) r) :
    (flattenIma reads r).1.getD 0 [] = reads.getD 0 [] := by
  by_cases hn : reads.length ≤ 1
  · unfold flattenIma
    rw [show reads.length - 1 = 0 from by omega]
    rfl
  · obtain ⟨t, ht⟩ : ∃ t, total_countrate reads r = some t :=
      ⟨_, npMedian_eq_some _ h0 h0f⟩
    rw [flatten_fst_getD reads r (by omega)]
    unfold correctedRead
    rw [ht, show readMed reads r 0 = some t from ht]
    show addScalar (reads.getD 0 []) (some (t - t)) = _
    rw [show t - t = 0 from by ring]
    exact addScalar_zero _

/-- Witness for C9_reference_unmodified at the concrete ramp R3. -/
theorem C9_witness :
    (flattenIma R3 r11).1.getD 0 [] = R3.getD 0 [] :=
  C9_reference_unmodified R3 r11 (by decide) (by decide)

/-- Claim C10: the loop `for i in range(NSAMP-1)` corrects only extensions
SCI,1 .. SCI,NSAMP-1, so the last SCI extension (index NSAMP, the read
nearest the start of the exposure, list index NSAMP-1) is returned
unmodified, the emitted diagnostic extension numbers are exactly
1 .. NSAMP-1, and in particular extension NSAMP never receives a
diagnostic entry. -/
theorem C10_last_extension_untouched (reads : List Image) (r : Region) :
    (flattenIma reads r).1.getD (reads.length - 1) [] =
      reads.getD (reads.length - 1) [] ∧
    (flattenIma reads r).2.map Prod.fst =
      (List.range (reads.length - 1)).map (· + 1) ∧
    reads.length ∉ (flattenIma reads r).2.map Prod.fst := by
  have hfst : (flattenIma reads r).2.map Prod.fst =
      (List.range (reads.length - 1)).map (· + 1) := by
    rw [flatten_snd, List.map_map]
    rfl
  refine ⟨flatten_fst_getD_ge reads r le_rfl, hfst, ?_⟩
  rw [hfst]
  intro hmem
  rcases List.mem_map.mp hmem with ⟨i, hi, he⟩
  have hilt : i < reads.length - 1 := List.mem_range.mp hi
  omega
